import Mathlib

/-!
# csv-reader-cmd: a shallow embedding of `main.go`

The program is a single `main` function.  It is embedded here stage by stage,
each stage a function named after the variable or loop of `main.go` it stands
for, and `main` composes them in source order.

Go strings are modelled by `String`; every separator and prefix the program
tests for (`=`, `--json`, `--print`) is ASCII, so splitting and prefix tests
agree on characters and on bytes.  The file system, the clock, standard input
and the two standard-library encoders are collected in `Env`.
-/

namespace CsvReaderCmd

/-! ## Go values -/

/-- A Go slice value: `nil`, or a non-nil slice holding `elems`. -/
inductive Slice (α : Type) where
  | nil : Slice α
  | mk (elems : List α) : Slice α
  deriving DecidableEq, Repr

namespace Slice

/-- The elements a `range` loop visits. -/
def toList {α : Type} : Slice α → List α
  | nil => []
  | mk l => l

/-- Go `len(s)`. -/
def len {α : Type} (s : Slice α) : Nat := s.toList.length

/-- Go `append(s, x)`: the result is never nil. -/
def append {α : Type} (s : Slice α) (x : α) : Slice α := mk (s.toList ++ [x])

/-- Go `s[:n]` for `n ≤ len(s)`; slicing a nil slice at 0 keeps nil. -/
def upTo {α : Type} (s : Slice α) (n : Nat) : Slice α :=
  match s with
  | nil => nil
  | mk l => mk (l.take n)

end Slice

/-- The type `Record map[string]string`: a finite map kept as a list of
key/value pairs with pairwise distinct keys. -/
abbrev Record := List (String × String)

namespace Record

/-- Go `make(Record)`. -/
def empty : Record := []

/-- Go `rec[k] = v`: overwrite the entry of `k`, or add one. -/
def assign : Record → String → String → Record
  | [], k, v => [(k, v)]
  | (k', v') :: r, k, v =>
    if k' = k then (k, v) :: r else (k', v') :: assign r k v

/-- Go `rec[k]` used as a value: the zero value `""` when `k` is absent. -/
def index : Record → String → String
  | [], _ => ""
  | (k', v') :: r, k => if k' = k then v' else index r k

/-- The key set of the map, as a list. -/
def keys (r : Record) : List String := r.map Prod.fst

end Record

/-! ## `strings` functions used by `main` -/

/-- Go `strings.HasPrefix(s, prefix)`:
`len(s) >= len(prefix) && s[:len(prefix)] == prefix`. -/
def HasPrefix (s pre : String) : Bool :=
  decide (pre.data.length ≤ s.data.length) && (s.data.take pre.data.length == pre.data)

/-- Go `strings.Index(s, "=")` on the characters of `s`: the position of the
first `=`, or `-1`. -/
def IndexEq : List Char → Int
  | [] => -1
  | c :: cs =>
    if c = '=' then 0
    else
      let m := IndexEq cs
      if m < 0 then -1 else m + 1

/-- Go `strings.SplitN(s, "=", 2)`.  `genSplit` first clips `n` to `len(s) + 1`,
allocates `n` slots and runs its loop `n - 1` times: with `n = 2` it cuts at
most once, at the first `=`. -/
def SplitN (s : String) : List String :=
  let n := if 2 > s.data.length + 1 then s.data.length + 1 else 2
  if n - 1 = 0 then [s]
  else
    let m := IndexEq s.data
    if m < 0 then [s]
    else [String.mk (s.data.take m.toNat), String.mk (s.data.drop (m.toNat + 1))]

/-! ## Stages of `main` -/

/-- One step of the flag loop (lines 28-35): the `switch` takes the first
case whose condition holds. -/
def flagStep (st : String × Bool) (arg : String) : String × Bool :=
  if HasPrefix arg "--print" then (st.1, true)
  else if HasPrefix arg "--json" then ("json", st.2)
  else st

/-- The flag loop over `os.Args[2:]`, from `outputFormat := "csv"` and
`printOutput := false`; the result is `(outputFormat, printOutput)`. -/
def parseFlags (rest : List String) : String × Bool :=
  rest.foldl flagStep ("csv", false)

/-- The inner shaping loop (lines 77-79), `for i, value := range record`,
started at index `i` with the map `rec`.  `headers[i]` past the end of
`headers` is a run-time failure, `none`. -/
def shapeLoop (headers : List String) : Nat → List String → Record → Option Record
  | _, [], rec => some rec
  | i, value :: rest, rec =>
    match headers[i]? with
    | none => none
    | some h => shapeLoop headers (i + 1) rest (rec.assign h value)

/-- The Record built for one row (lines 76-79). -/
def shapeRow (headers record : List String) : Option Record :=
  shapeLoop headers 0 record Record.empty

/-- The outer shaping loop (lines 74-81) continued from `acc`. -/
def shapeFrom (headers : List String) : List (List String) → Slice Record → Option (Slice Record)
  | [], acc => some acc
  | record :: rest, acc =>
    match shapeRow headers record with
    | none => none
    | some rec => shapeFrom headers rest (acc.append rec)

/-- The slice `filteredRecords` after line 81: `var filteredRecords []Record`
is nil and stays nil when there is no data row. -/
def shapeRecords (headers : List String) (rows : List (List String)) : Option (Slice Record) :=
  shapeFrom headers rows Slice.nil

/-- The column search (lines 95-101) from position `i`: the index of the
first header equal to `columnName`, or `-1`. -/
def findColumn (columnName : String) : Nat → List String → Int
  | _, [] => -1
  | i, header :: rest =>
    if header = columnName then (i : Int) else findColumn columnName (i + 1) rest

/-- The filter loop (lines 109-114) continued from `filtered`. -/
def filterLoop (columnName filterValue : String) : List Record → Slice Record → Slice Record
  | [], filtered => filtered
  | record :: rest, filtered =>
    if record.index columnName = filterValue then
      filterLoop columnName filterValue rest (filtered.append record)
    else filterLoop columnName filterValue rest filtered

/-- How the block of lines 84-127 ends. -/
inductive Selection where
  | invalidFormat : Selection
  | unknownColumn (columnName : String) : Selection
  | noMatch : Selection
  | selected (filteredRecords : Slice Record) : Selection
  deriving DecidableEq, Repr

/-- Lines 84-127: parse the token, look the column up, filter, or take the
first ten records. -/
def select (headers : List String) (filteredRecords : Slice Record) (columnFilter : String) :
    Selection :=
  if columnFilter ≠ "" then
    match SplitN columnFilter with
    | [columnName, filterValue] =>
      if findColumn columnName 0 headers = -1 then Selection.unknownColumn columnName
      else
        let filtered := filterLoop columnName filterValue filteredRecords.toList Slice.nil
        if filtered.len = 0 then Selection.noMatch else Selection.selected filtered
    | _ => Selection.invalidFormat
  else if filteredRecords.len > 10 then Selection.selected (filteredRecords.upTo 10)
  else Selection.selected filteredRecords

/-- The projection loop (lines 153-156) from index `i`: `recordSlice[i] =
record[header]` for each header in turn. -/
def projectLoop (record : Record) : Nat → List String → List String → List String
  | _, [], recordSlice => recordSlice
  | i, header :: rest, recordSlice =>
    projectLoop record (i + 1) rest (recordSlice.set i (record.index header))

/-- The row written for one record: `make([]string, len(headers))` filled by
the projection loop. -/
def project (headers : List String) (record : Record) : List String :=
  projectLoop record 0 headers (List.replicate headers.length "")

/-- The record loop of the tabular branch (lines 152-158): the rows passed
to `writer.Write`, appended to `written`. -/
def writeLoop (headers : List String) : List Record → List (List String) → List (List String)
  | [], written => written
  | record :: rest, written => writeLoop headers rest (written ++ [project headers record])

/-- Every row passed to `writer.Write` in the tabular branch (lines 150-158),
in call order. -/
def csvRows (headers : List String) (filteredRecords : Slice Record) : List (List String) :=
  writeLoop headers filteredRecords.toList [headers]

/-- The JSON document `encoding/json` builds for a `[]Record`: a nil slice
encodes as `null`, any other slice as an array with one object per element
(a map encodes as an object of its entries). -/
inductive JsonDoc where
  | null : JsonDoc
  | array (objects : List Record) : JsonDoc
  deriving DecidableEq, Repr

/-- The value `json.MarshalIndent` encodes on line 146. -/
def jsonValue : Slice Record → JsonDoc
  | Slice.nil => JsonDoc.null
  | Slice.mk l => JsonDoc.array l

/-! ## The environment of a run -/

/-- Everything `main` obtains from outside the program text. -/
structure Env where
  /-- The error of `os.Open(inputFile)`, if it fails. -/
  openErr : String → Option String
  /-- The result of `reader.ReadAll()` on the opened file. -/
  readAll : String → Except String (List (List String))
  /-- The value of `columnFilter` after `fmt.Scanln(&columnFilter)`. -/
  scanned : String
  /-- The error of `os.MkdirAll(outputDir, os.ModePerm)`, if it fails. -/
  mkdirErr : Option String
  /-- The text of `time.Now().Format("20060102150405")`. -/
  timestamp : String
  /-- The result of `json.MarshalIndent(v, "", "  ")` on a document. -/
  marshalIndent : JsonDoc → Except String String
  /-- The text one call of `writer.Write(row)` adds to `csvOutput`. -/
  csvWrite : List String → String
  /-- The error of `ioutil.WriteFile(outputFile, outputData, 0644)`, if it fails. -/
  writeErr : Option String

/-- What a run does that can be observed. -/
structure Outcome where
  /-- The text of every print call, in program order. -/
  stdout : List String
  /-- The path and content of the file a successful `ioutil.WriteFile` wrote. -/
  file : Option (String × String)
  /-- The run stopped on a run-time failure (index out of range). -/
  crashed : Bool
  deriving DecidableEq, Repr

/-- The header listing loop (lines 62-64) from index `i`. -/
def headerLines : Nat → List String → List String
  | _, [] => []
  | i, header :: rest => (toString i ++ ": " ++ header ++ "\n") :: headerLines (i + 1) rest

/-- Everything printed by lines 61-71. -/
def preamble (headers : List String) : List String :=
  ["Headers:\n"] ++ headerLines 0 headers ++
    ["\n\n", "Enter column=value to filter or press Enter to see the first 10 entries:\n", "\n\n"]

/-- Line 139: `filepath.Join(outputDir, fmt.Sprintf("output_%s.%s", ...))`. -/
def outputPath (timestamp outputFormat : String) : String :=
  "outputs" ++ "/" ++ ("output_" ++ timestamp ++ "." ++ outputFormat)

/-- The text in `csvOutput` after `writer.Flush()` (lines 149-159). -/
def csvText (E : Env) (headers : List String) (filteredRecords : Slice Record) : String :=
  String.join ((csvRows headers filteredRecords).map E.csvWrite)

/-- Lines 129-184: create the directory, encode, write the file, report. -/
def emit (E : Env) (headers : List String) (filteredRecords : Slice Record)
    (outputFormat : String) (printOutput : Bool) (out : List String) : Outcome :=
  match E.mkdirErr with
  | some err => ⟨out ++ ["\n Error creating output directory: " ++ err ++ "\n"], none, false⟩
  | none =>
    let outputFile := outputPath E.timestamp outputFormat
    let csvOutput := if outputFormat = "json" then "" else csvText E headers filteredRecords
    let encoded : Except String String :=
      if outputFormat = "json" then E.marshalIndent (jsonValue filteredRecords)
      else Except.ok csvOutput
    match encoded with
    | Except.error err2 => ⟨out ++ ["Error creating output data: " ++ err2 ++ "\n"], none, false⟩
    | Except.ok outputData =>
      match E.writeErr with
      | some err => ⟨out ++ ["Error writing to output file: " ++ err ++ "\n"], none, false⟩
      | none =>
        if printOutput then
          if outputFormat = "json" then
            ⟨out ++ [outputData ++ "\n"], some (outputFile, outputData), false⟩
          else ⟨out ++ [csvOutput ++ "\n"], some (outputFile, outputData), false⟩
        else ⟨out ++ ["Output written to " ++ outputFile ++ "\n"], some (outputFile, outputData), false⟩

/-- Lines 59-184, entered once `records` is known to be non-empty. -/
def process (E : Env) (outputFormat : String) (printOutput : Bool)
    (headers : List String) (rows : List (List String)) : Outcome :=
  let out := preamble headers
  match shapeRecords headers rows with
  | none => ⟨out, none, true⟩
  | some filteredRecords =>
    match select headers filteredRecords E.scanned with
    | Selection.invalidFormat =>
      ⟨out ++ ["\nInvalid filter format. Use <column>=<value>.\n"], none, false⟩
    | Selection.unknownColumn columnName =>
      ⟨out ++ ["\n Column name \'" ++ columnName ++ "\' not found.\n"], none, false⟩
    | Selection.noMatch => ⟨out ++ ["No matching records found.\n"], none, false⟩
    | Selection.selected filtered => emit E headers filtered outputFormat printOutput out

/-- The program: `args` is `os.Args`. -/
def main (E : Env) (args : List String) : Outcome :=
  match args with
  | _ :: inputFile :: rest =>
    let flags := parseFlags rest
    match E.openErr inputFile with
    | some err => ⟨["Error opening file: " ++ err ++ "\n"], none, false⟩
    | none =>
      match E.readAll inputFile with
      | Except.error err => ⟨["Error reading CSV: " ++ err ++ "\n"], none, false⟩
      | Except.ok [] => ⟨["No records found in the CSV file.\n"], none, false⟩
      | Except.ok (headers :: rows) => process E flags.1 flags.2 headers rows
  | _ => ⟨["Usage: go run main.go <input.csv> [--json] [--print]\n"], none, false⟩

/-! ## The standard encoders, for concrete runs

The theorems below hold for every `Env`.  Concrete runs use `goEnv`, whose
encoders follow `encoding/csv` (`Writer.Write` with the default `Comma` and
`UseCRLF = false`) and `encoding/json` (`MarshalIndent` with prefix `""` and
indent two spaces, object keys sorted). -/

/-- Go `unicode.IsSpace`. -/
def isSpaceRune (c : Char) : Bool :=
  let n := c.toNat
  (9 ≤ n && n ≤ 13) || n = 32 || n = 133 || n = 160 || n = 5760 ||
    (8192 ≤ n && n ≤ 8202) || n = 8232 || n = 8233 || n = 8239 || n = 8287 || n = 12288

/-- Go `(*csv.Writer).fieldNeedsQuotes` with `Comma = ','`. -/
def fieldNeedsQuotes (field : String) : Bool :=
  if field = "" then false
  else if field = "\\." then true
  else if field.data.any (fun c => c = '\n' || c = '\r' || c = '"' || c = ',') then true
  else
    match field.data with
    | [] => false
    | r1 :: _ => isSpaceRune r1

/-- The body of a quoted field: `"` is doubled, everything else (with
`UseCRLF = false` also `\r` and `\n`) is copied. -/
def quoteBody : List Char → List Char
  | [] => []
  | c :: cs => if c = '"' then '"' :: '"' :: quoteBody cs else c :: quoteBody cs

/-- The text `Writer.Write` emits for one field. -/
def csvField (field : String) : String :=
  if fieldNeedsQuotes field then String.mk ('"' :: quoteBody field.data ++ ['"']) else field

/-- The text `Writer.Write(record)` emits: fields joined by commas, then `\n`. -/
def csvWriteRecord (record : List String) : String :=
  String.intercalate "," (record.map csvField) ++ "\n"

/-- A lower-case hexadecimal digit. -/
def hexDigit (n : Nat) : Char :=
  if n < 10 then Char.ofNat (48 + n) else Char.ofNat (87 + n)

/-- The escape `\u00XX` of a character below 128. -/
def uEscape (n : Nat) : List Char :=
  ['\\', 'u', '0', '0', hexDigit (n / 16), hexDigit (n % 16)]

/-- The text `encoding/json` emits for one character of a string, HTML
escaping on. -/
def jsonChar (c : Char) : List Char :=
  if c = '\\' ∨ c = '"' then ['\\', c]
  else if c = '\n' then ['\\', 'n']
  else if c = '\r' then ['\\', 'r']
  else if c = '\t' then ['\\', 't']
  else if c.toNat = 8 then ['\\', 'b']
  else if c.toNat = 12 then ['\\', 'f']
  else if c.toNat < 32 ∨ c = '<' ∨ c = '>' ∨ c = '&' then uEscape c.toNat
  else if c.toNat = 8232 then ['\\', 'u', '2', '0', '2', '8']
  else if c.toNat = 8233 then ['\\', 'u', '2', '0', '2', '9']
  else [c]

/-- A JSON string literal. -/
def jsonString (s : String) : String :=
  String.mk ('"' :: (s.data.map jsonChar).flatten ++ ['"'])

/-- Insert an entry into a list of entries sorted by key. -/
def insertEntry (e : String × String) : List (String × String) → List (String × String)
  | [] => [e]
  | x :: xs => if x.1 < e.1 then x :: insertEntry e xs else e :: x :: xs

/-- The entries of a map in key order, the order `encoding/json` writes them. -/
def sortedEntries (r : Record) : List (String × String) :=
  r.foldr insertEntry []

/-- One object of the array, at nesting depth one. -/
def jsonObject (r : Record) : String :=
  match sortedEntries r with
  | [] => "\x7b\x7d"
  | es =>
    "\x7b\n" ++
      String.intercalate ",\n" (es.map fun e => "    " ++ jsonString e.1 ++ ": " ++ jsonString e.2) ++
      "\n  \x7d"

/-- The text of `json.MarshalIndent(v, "", "  ")` for a document. -/
def jsonIndent : JsonDoc → String
  | JsonDoc.null => "null"
  | JsonDoc.array [] => "[]"
  | JsonDoc.array rs =>
    "[\n" ++ String.intercalate ",\n" (rs.map fun r => "  " ++ jsonObject r) ++ "\n]"

/-- A run in which every system call succeeds: the input file parses to
`records`, the line read from standard input is `token`, and the clock reads
`20240102030405`. -/
def goEnv (records : List (List String)) (token : String) : Env where
  openErr := fun _ => none
  readAll := fun _ => Except.ok records
  scanned := token
  mkdirErr := none
  timestamp := "20240102030405"
  marshalIndent := fun d => Except.ok (jsonIndent d)
  csvWrite := csvWriteRecord
  writeErr := none

/-- The input file of the specification's scenarios, parsed. -/
def sampleRecords : List (List String) :=
  [["name", "age"], ["Ada", "36"], ["Grace", "85"], ["Linus", "54"]]

/-! ## Auxiliary notions for the proofs -/

/-- The map the shaping loop builds from the header/field pairs `ps`,
starting from `rec`. -/
def assignAll (rec : Record) (ps : List (String × String)) : Record :=
  ps.foldl (fun r p => r.assign p.1 p.2) rec

/-- The text of a failure report of `emit` starts with `E` or with a
newline, a blank and `E`. -/
def ErrorText (m : String) : Prop :=
  m.data.take 1 = ['E'] ∨ m.data.take 3 = ['\n', ' ', 'E']

/-! ## Lemmas on the Go values -/

@[simp]
theorem Slice.toList_nil {α : Type} : (Slice.nil : Slice α).toList = [] := rfl

@[simp]
theorem Slice.toList_mk {α : Type} (l : List α) : (Slice.mk l).toList = l := rfl

@[simp]
theorem Slice.len_eq {α : Type} (s : Slice α) : s.len = s.toList.length := rfl

@[simp]
theorem Slice.toList_append {α : Type} (s : Slice α) (x : α) :
    (s.append x).toList = s.toList ++ [x] := rfl

theorem Record.index_assign (r : Record) (k v k' : String) :
    (r.assign k v).index k' = if k = k' then v else r.index k' := by
  induction r with
  | nil => simp [Record.assign, Record.index]
  | cons p r ih =>
    obtain ⟨a, b⟩ := p
    by_cases hak : a = k
    · subst hak
      by_cases hk : a = k' <;> simp [Record.assign, Record.index, hk]
    · simp only [Record.assign, hak, if_false, Record.index, ih]
      split_ifs <;> simp_all

theorem Record.mem_keys_assign (r : Record) (k v k' : String) :
    k' ∈ (r.assign k v).keys ↔ k' = k ∨ k' ∈ r.keys := by
  induction r with
  | nil => simp [Record.assign, Record.keys]
  | cons p r ih =>
    obtain ⟨a, b⟩ := p
    simp only [Record.keys] at ih
    by_cases hak : a = k
    · subst hak
      simp [Record.assign, Record.keys]
    · simp only [Record.assign, hak, if_false, Record.keys, List.map_cons, List.mem_cons, ih]
      tauto

theorem Record.nodup_keys_assign (r : Record) (k v : String) (h : r.keys.Nodup) :
    (r.assign k v).keys.Nodup := by
  induction r with
  | nil => simp [Record.assign, Record.keys]
  | cons p r ih =>
    obtain ⟨a, b⟩ := p
    simp only [Record.keys, List.map_cons, List.nodup_cons] at h
    by_cases hak : a = k
    · subst hak
      simpa [Record.assign, Record.keys] using h
    · have hmem := Record.mem_keys_assign r k v a
      simp only [Record.keys] at hmem ih
      simp only [Record.assign, hak, if_false, Record.keys, List.map_cons, List.nodup_cons]
      refine ⟨?_, ih h.2⟩
      rw [hmem]
      rintro (h1 | h1)
      · exact hak h1
      · exact h.1 h1

theorem shapeLoop_eq (headers : List String) (record : List String) :
    ∀ (i : Nat) (rec : Record), i + record.length ≤ headers.length →
      shapeLoop headers i record rec = some (assignAll rec (List.zip (headers.drop i) record)) := by
  induction record with
  | nil => intro i rec _; simp [shapeLoop, assignAll]
  | cons value rest ih =>
    intro i rec h
    have hi : i < headers.length := by simp at h; omega
    have hd : headers.drop i = headers[i] :: headers.drop (i + 1) := List.drop_eq_getElem_cons hi
    have hnext : (i + 1) + rest.length ≤ headers.length := by simp at h; omega
    rw [shapeLoop, List.getElem?_eq_getElem hi]
    simp only []
    rw [ih (i + 1) _ hnext, hd]
    simp only [assignAll, List.zip_cons_cons, List.foldl_cons]

theorem shapeRow_eq (headers record : List String) (h : record.length ≤ headers.length) :
    shapeRow headers record = some (assignAll [] (List.zip headers record)) := by
  have := shapeLoop_eq headers record 0 Record.empty (by simpa using h)
  simpa [shapeRow, Record.empty] using this

theorem shapeFrom_eq (headers : List String) (rows : List (List String)) :
    ∀ acc : Slice Record, (∀ r ∈ rows, r.length ≤ headers.length) →
      shapeFrom headers rows acc =
        some (if rows = [] then acc
          else Slice.mk (acc.toList ++ rows.map fun r => assignAll [] (List.zip headers r))) := by
  induction rows with
  | nil => intro acc _; simp [shapeFrom]
  | cons row rest ih =>
    intro acc h
    have hrow := shapeRow_eq headers row (h row (List.mem_cons_self _ _))
    have hrest : ∀ r ∈ rest, r.length ≤ headers.length := fun r hr => h r (List.mem_cons_of_mem _ hr)
    rw [shapeFrom, hrow]
    simp only [ih _ hrest]
    by_cases hr : rest = []
    · subst hr; simp [Slice.append]
    · simp [hr, Slice.append]

theorem shapeRecords_eq (headers : List String) (rows : List (List String))
    (h : ∀ r ∈ rows, r.length ≤ headers.length) :
    shapeRecords headers rows =
      some (if rows = [] then Slice.nil
        else Slice.mk (rows.map fun r => assignAll [] (List.zip headers r))) := by
  rw [shapeRecords, shapeFrom_eq headers rows Slice.nil h]
  simp [Slice.toList]

theorem shapeRecords_toList (headers : List String) (rows : List (List String))
    (h : ∀ r ∈ rows, r.length ≤ headers.length) :
    ∃ recs, shapeRecords headers rows = some recs ∧
      recs.toList = rows.map fun r => assignAll [] (List.zip headers r) := by
  refine ⟨_, shapeRecords_eq headers rows h, ?_⟩
  by_cases hr : rows = []
  · subst hr; simp [Slice.toList]
  · simp [hr, Slice.toList]

theorem filterLoop_eq (c v : String) (l : List Record) :
    ∀ acc : Slice Record,
      filterLoop c v l acc =
        if l.filter (fun r => decide (r.index c = v)) = [] then acc
        else Slice.mk (acc.toList ++ l.filter fun r => decide (r.index c = v)) := by
  induction l with
  | nil => intro acc; simp [filterLoop]
  | cons r rest ih =>
    intro acc
    by_cases hr : r.index c = v
    · simp only [filterLoop, hr, if_true, ih, List.filter_cons, decide_True]
      by_cases hrest : rest.filter (fun r => decide (r.index c = v)) = []
      · simp [hrest, Slice.append]
      · simp [hrest, Slice.append, Slice.toList]
    · simp [filterLoop, hr, ih, List.filter_cons]

theorem findColumn_eq_neg_one (c : String) (l : List String) :
    ∀ i : Nat, findColumn c i l = -1 ↔ c ∉ l := by
  induction l with
  | nil => intro i; simp [findColumn]
  | cons h rest ih =>
    intro i
    by_cases hc : h = c
    · subst hc
      simp only [findColumn, if_true, List.mem_cons, true_or, not_true_eq_false, iff_false]
      omega
    · have hc' : ¬ c = h := fun e => hc e.symm
      simp [findColumn, hc, hc', ih]

/-! ## Lemmas on the token split -/

theorem IndexEq_spec (l : List Char) :
    ('=' ∉ l ∧ IndexEq l = -1) ∨
      ∃ a b, l = a ++ '=' :: b ∧ '=' ∉ a ∧ IndexEq l = (a.length : Int) := by
  induction l with
  | nil => left; simp [IndexEq]
  | cons c cs ih =>
    by_cases hc : c = '='
    · right
      exact ⟨[], cs, by simp [hc], by simp, by simp [IndexEq, hc]⟩
    · have hc' : ¬ '=' = c := fun e => hc e.symm
      rcases ih with ⟨hno, hm⟩ | ⟨a, b, hl, ha, hm⟩
      · left
        exact ⟨by simp [hc', hno], by simp [IndexEq, hc, hm]⟩
      · right
        refine ⟨c :: a, b, by simp [hl], by simp [hc', ha], ?_⟩
        have hnn : ¬ ((a.length : Int) < 0) := by omega
        simp [IndexEq, hc, hm, hnn]

theorem IndexEq_append (a b : List Char) (ha : '=' ∉ a) :
    IndexEq (a ++ '=' :: b) = (a.length : Int) := by
  induction a with
  | nil => simp [IndexEq]
  | cons c cs ih =>
    have hc : ¬ c = '=' := fun e => ha (by simp [e])
    have hcs : '=' ∉ cs := fun e => ha (List.mem_cons_of_mem _ e)
    have hnn : ¬ ((cs.length : Int) < 0) := by omega
    simp [IndexEq, hc, ih hcs, hnn]

theorem SplitN_of_parts (a b : List Char) (ha : '=' ∉ a) :
    SplitN (String.mk (a ++ '=' :: b)) = [String.mk a, String.mk b] := by
  have hnn : ¬ ((a.length : Int) < 0) := by omega
  have hlen : ¬ (2 > (a ++ '=' :: b).length + 1) := by
    simp only [List.length_append, List.length_cons]; omega
  simp only [SplitN, if_neg hlen]
  simp [IndexEq_append a b ha, hnn]

theorem SplitN_token (c v : String) (hc : '=' ∉ c.data) :
    SplitN (c ++ "=" ++ v) = [c, v] := by
  have h : c ++ "=" ++ v = String.mk (c.data ++ '=' :: v.data) := by
    apply String.ext
    simp [String.data_append]
  rw [h, SplitN_of_parts c.data v.data hc]

theorem SplitN_no_eq (t : String) (h : '=' ∉ t.data) : SplitN t = [t] := by
  rcases IndexEq_spec t.data with ⟨_, hm⟩ | ⟨a, b, hl, _, _⟩
  · simp [SplitN, hm]
  · exact absurd (by simp [hl]) h

theorem SplitN_has_eq (t : String) (h : '=' ∈ t.data) :
    ∃ c v, SplitN t = [c, v] ∧ c ++ "=" ++ v = t ∧ '=' ∉ c.data := by
  rcases IndexEq_spec t.data with ⟨hno, _⟩ | ⟨a, b, hl, ha, _⟩
  · exact absurd h hno
  · have ht : t = String.mk (a ++ '=' :: b) := String.ext (by simp [hl])
    refine ⟨String.mk a, String.mk b, ?_, ?_, ha⟩
    · rw [ht, SplitN_of_parts a b ha]
    · rw [ht]
      apply String.ext
      simp [String.data_append]

/-! ## Lemmas on the selection -/

theorem token_ne_empty (c v : String) : c ++ "=" ++ v ≠ "" := by
  intro h
  have := congrArg String.data h
  simp [String.data_append] at this

theorem select_token (headers : List String) (recs : Slice Record) (c v : String)
    (hc : '=' ∉ c.data) :
    select headers recs (c ++ "=" ++ v) =
      if c ∉ headers then Selection.unknownColumn c
      else if recs.toList.filter (fun r => decide (r.index c = v)) = [] then Selection.noMatch
      else Selection.selected (Slice.mk (recs.toList.filter fun r => decide (r.index c = v))) := by
  simp only [select, token_ne_empty c v, ne_eq, not_false_eq_true, if_true, SplitN_token c v hc,
    findColumn_eq_neg_one, filterLoop_eq]
  by_cases hmem : c ∈ headers
  · by_cases hf : recs.toList.filter (fun r => decide (r.index c = v)) = []
    · simp only [hmem, not_true_eq_false, if_false, hf, if_true]
      simp
    · simp only [hmem, not_true_eq_false, if_false, hf]
      simp [hf]
  · simp [hmem]

theorem select_token_unknown (headers : List String) (recs : Slice Record) (c v : String)
    (hc : '=' ∉ c.data) (hmem : c ∉ headers) :
    select headers recs (c ++ "=" ++ v) = Selection.unknownColumn c := by
  rw [select_token headers recs c v hc, if_pos hmem]

theorem select_token_noMatch (headers : List String) (recs : Slice Record) (c v : String)
    (hc : '=' ∉ c.data) (hmem : c ∈ headers)
    (hf : recs.toList.filter (fun r => decide (r.index c = v)) = []) :
    select headers recs (c ++ "=" ++ v) = Selection.noMatch := by
  rw [select_token headers recs c v hc, if_neg (not_not.mpr hmem), if_pos hf]

theorem select_token_selected (headers : List String) (recs : Slice Record) (c v : String)
    (hc : '=' ∉ c.data) (hmem : c ∈ headers)
    (hf : recs.toList.filter (fun r => decide (r.index c = v)) ≠ []) :
    select headers recs (c ++ "=" ++ v) =
      Selection.selected (Slice.mk (recs.toList.filter fun r => decide (r.index c = v))) := by
  rw [select_token headers recs c v hc, if_neg (not_not.mpr hmem), if_neg hf]

theorem select_empty (headers : List String) (recs : Slice Record) :
    select headers recs "" =
      Selection.selected (if recs.len > 10 then Slice.mk (recs.toList.take 10) else recs) := by
  cases recs with
  | nil => simp [select]
  | mk l =>
    by_cases h : l.length > 10
    · simp [select, Slice.upTo, h]
    · simp [select, h]

/-! ## Filtering and the head slice -/

/-- C1 (stable filtering).  For every header, every list of data rows with
as many fields as the header, and every token `c=v` whose column `c` is a
header entry: the shaping loop yields one record per row in row order; the
filter loop returns exactly the records whose value at `c` equals `v`, a
sublist of the shaped records in their order; and that list is what `select`
passes on (or reports as empty). -/
theorem stable_filtering (headers : List String) (rows : List (List String)) (c v : String)
    (hrows : ∀ r ∈ rows, r.length = headers.length) (hc : c ∈ headers)
    (hsplit : '=' ∉ c.data) :
    ∃ recs : Slice Record, shapeRecords headers rows = some recs ∧
      List.Forall₂ (fun row r => shapeRow headers row = some r) rows recs.toList ∧
      (filterLoop c v recs.toList Slice.nil).toList =
        recs.toList.filter (fun r => decide (r.index c = v)) ∧
      List.Sublist (filterLoop c v recs.toList Slice.nil).toList recs.toList ∧
      select headers recs (c ++ "=" ++ v) =
        (if recs.toList.filter (fun r => decide (r.index c = v)) = [] then Selection.noMatch
         else Selection.selected (Slice.mk (recs.toList.filter fun r => decide (r.index c = v)))) := by
  have hle : ∀ r ∈ rows, r.length ≤ headers.length := fun r hr => le_of_eq (hrows r hr)
  obtain ⟨recs, hrecs, hlist⟩ := shapeRecords_toList headers rows hle
  have hfilter : (filterLoop c v recs.toList Slice.nil).toList =
      recs.toList.filter (fun r => decide (r.index c = v)) := by
    rw [filterLoop_eq]
    by_cases hf : recs.toList.filter (fun r => decide (r.index c = v)) = []
    · rw [if_pos hf, hf]; rfl
    · rw [if_neg hf]; simp
  refine ⟨recs, hrecs, ?_, hfilter, ?_, ?_⟩
  · rw [hlist, List.forall₂_map_right_iff]
    apply List.forall₂_same.mpr
    intro r hr
    exact shapeRow_eq headers r (hle r hr)
  · rw [hfilter]
    exact List.filter_sublist _
  · rw [select_token headers recs c v hsplit]
    simp [hc]

/-- A concrete instance of C1: the sample file filtered by `name=Grace`. -/
theorem stable_filtering_witness :
    ∃ recs : Slice Record, shapeRecords ["name", "age"] sampleRecords.tail = some recs ∧
      List.Forall₂ (fun row r => shapeRow ["name", "age"] row = some r)
        sampleRecords.tail recs.toList ∧
      (filterLoop "name" "Grace" recs.toList Slice.nil).toList =
        recs.toList.filter (fun r => decide (r.index "name" = "Grace")) ∧
      List.Sublist (filterLoop "name" "Grace" recs.toList Slice.nil).toList recs.toList ∧
      select ["name", "age"] recs ("name" ++ "=" ++ "Grace") =
        (if recs.toList.filter (fun r => decide (r.index "name" = "Grace")) = []
         then Selection.noMatch
         else Selection.selected
          (Slice.mk (recs.toList.filter fun r => decide (r.index "name" = "Grace")))) :=
  stable_filtering ["name", "age"] sampleRecords.tail "name" "Grace"
    (by decide) (by decide) (by decide)

/-- C2 (head-slice law).  With an empty token, for every slice of `N`
records the selection is the first `min(10, N)` records in input order: all
of them when `N ≤ 10`, the first ten otherwise. -/
theorem head_slice (headers : List String) (recs : Slice Record) :
    ∃ sel : Slice Record, select headers recs "" = Selection.selected sel ∧
      sel.toList = recs.toList.take (min 10 recs.len) ∧
      sel.len = min 10 recs.len ∧
      (recs.len ≤ 10 → sel.toList = recs.toList) ∧
      (10 < recs.len → sel.toList = recs.toList.take 10) := by
  refine ⟨_, select_empty headers recs, ?_⟩
  by_cases h : recs.len > 10
  · have h' : 10 < recs.toList.length := h
    have hmin : min 10 recs.len = 10 := by
      have : recs.len = recs.toList.length := rfl
      omega
    rw [if_pos h, hmin]
    refine ⟨rfl, ?_, fun hle => ?_, fun _ => rfl⟩
    · simp only [Slice.len_eq, Slice.toList_mk, List.length_take]
      omega
    · have : recs.len = recs.toList.length := rfl
      omega
  · have h' : recs.toList.length ≤ 10 := by simpa using h
    have hmin : min 10 recs.len = recs.toList.length := by simp [h']
    rw [if_neg h, hmin]
    refine ⟨(List.take_length recs.toList).symm, rfl, fun _ => rfl, fun hlt => ?_⟩
    have : recs.len = recs.toList.length := rfl
    omega

/-! ## Flags -/

theorem prefixes_exclusive (a : String) (h : HasPrefix a "--print" = true) :
    HasPrefix a "--json" = false := by
  have e1 : "--print".data = ['-', '-', 'p', 'r', 'i', 'n', 't'] := rfl
  have e2 : "--json".data = ['-', '-', 'j', 's', 'o', 'n'] := rfl
  rcases a with ⟨l⟩
  simp only [HasPrefix, e1, e2] at h ⊢
  rcases l with _ | ⟨c1, _ | ⟨c2, _ | ⟨c3, l⟩⟩⟩ <;> simp at h ⊢
  intro _ _ _ h3
  rw [h.2.2.2.1] at h3
  exact absurd h3 (by decide)

theorem foldl_flagStep (rest : List String) :
    ∀ st : String × Bool,
      rest.foldl flagStep st =
        (if rest.any (fun a => HasPrefix a "--json") then "json" else st.1,
          st.2 || rest.any (fun a => HasPrefix a "--print")) := by
  induction rest with
  | nil => intro st; simp
  | cons a rest ih =>
    intro st
    rw [List.foldl_cons, ih]
    by_cases hp : HasPrefix a "--print" = true
    · have hj := prefixes_exclusive a hp
      simp [flagStep, hp, hj]
    · by_cases hj : HasPrefix a "--json" = true
      · simp [flagStep, hp, hj]
      · simp [flagStep, hp, hj]

theorem any_congr_mem {α : Type} (p : α → Bool) (l l' : List α)
    (h : ∀ a, a ∈ l ↔ a ∈ l') : l.any p = l'.any p := by
  rw [Bool.eq_iff_iff, List.any_eq_true, List.any_eq_true]
  constructor
  · rintro ⟨x, hx, hpx⟩; exact ⟨x, (h x).mp hx, hpx⟩
  · rintro ⟨x, hx, hpx⟩; exact ⟨x, (h x).mpr hx, hpx⟩

/-- C5 (flag parsing).  For every argument list after the input path:
`outputFormat` is `json` iff some argument begins with `--json` and `csv`
otherwise, and `printOutput` is true iff some argument begins with
`--print`.  Hence two argument lists with the same members give the same
configuration: any permutation, any repetition of an argument, and adding or
dropping arguments that begin with neither prefix. -/
theorem flag_parsing (rest : List String) :
    parseFlags rest =
        (if rest.any (fun a => HasPrefix a "--json") then "json" else "csv",
          rest.any (fun a => HasPrefix a "--print")) ∧
      ((parseFlags rest).1 = "json" ↔ ∃ a ∈ rest, HasPrefix a "--json" = true) ∧
      ((parseFlags rest).1 = "csv" ↔ ¬ ∃ a ∈ rest, HasPrefix a "--json" = true) ∧
      ((parseFlags rest).2 = true ↔ ∃ a ∈ rest, HasPrefix a "--print" = true) ∧
      (∀ other : List String, List.Perm rest other → parseFlags other = parseFlags rest) ∧
      (∀ (front back : List String) (a : String), rest = front ++ a :: back →
        parseFlags (front ++ a :: a :: back) = parseFlags rest) ∧
      (∀ (front back : List String) (a : String), rest = front ++ a :: back →
        HasPrefix a "--json" = false → HasPrefix a "--print" = false →
        parseFlags (front ++ back) = parseFlags rest) := by
  have hchar : ∀ l : List String, parseFlags l =
      (if l.any (fun a => HasPrefix a "--json") then "json" else "csv",
        l.any (fun a => HasPrefix a "--print")) := by
    intro l
    rw [parseFlags, foldl_flagStep]
    simp
  have hset : ∀ l l' : List String, (∀ a, a ∈ l ↔ a ∈ l') → parseFlags l' = parseFlags l := by
    intro l l' h
    rw [hchar l, hchar l', any_congr_mem _ l l' h, any_congr_mem _ l l' h]
  refine ⟨hchar rest, ?_, ?_, ?_, ?_, ?_, ?_⟩
  · rw [hchar rest]
    by_cases h : rest.any (fun a => HasPrefix a "--json") = true
    · simp only [h, if_true, true_iff]
      simpa using h
    · simp only [h, if_false]
      constructor
      · intro e; exact absurd e (by decide)
      · intro e; exact absurd (by simpa using e) h
  · rw [hchar rest]
    by_cases h : rest.any (fun a => HasPrefix a "--json") = true
    · simp only [h, if_true]
      constructor
      · intro e; exact absurd e (by decide)
      · intro e; exact absurd (by simpa using h) e
    · have hne : ¬ ∃ a ∈ rest, HasPrefix a "--json" = true := fun e => h (by simpa using e)
      simp [h, hne]
  · rw [hchar rest]
    simp
  · intro other hperm
    exact hset rest other (fun a => hperm.mem_iff)
  · intro front back a hrest
    subst hrest
    apply hset
    intro b
    simp only [List.mem_append, List.mem_cons]
    tauto
  · intro front back a hrest hj hp
    subst hrest
    rw [hchar, hchar]
    simp [List.any_append, hj, hp]

/-! ## The shape of a record -/

theorem assignAll_append (r : Record) (ps qs : List (String × String)) :
    assignAll r (ps ++ qs) = assignAll (assignAll r ps) qs := by
  simp [assignAll, List.foldl_append]

theorem assignAll_index_keep (ps : List (String × String)) :
    ∀ (r : Record) (k : String), k ∉ ps.map Prod.fst → (assignAll r ps).index k = r.index k := by
  induction ps with
  | nil => intro r k _; rfl
  | cons p ps ih =>
    intro r k hk
    simp only [List.map_cons, List.mem_cons, not_or] at hk
    have hstep : assignAll r (p :: ps) = assignAll (r.assign p.1 p.2) ps := rfl
    have hne : ¬ p.1 = k := fun e => hk.1 e.symm
    rw [hstep, ih _ k hk.2, Record.index_assign, if_neg hne]

theorem assignAll_index_at (ps : List (String × String)) (r : Record) (i : Nat) (k x : String)
    (hi : ps[i]? = some (k, x)) (hlast : ∀ j y, i < j → ps[j]? ≠ some (k, y)) :
    (assignAll r ps).index k = x := by
  obtain ⟨hlt, hget⟩ := List.getElem?_eq_some.mp hi
  have hsplit : ps = ps.take i ++ (k, x) :: ps.drop (i + 1) := by
    conv_lhs => rw [← List.take_append_drop i ps, List.drop_eq_getElem_cons hlt, hget]
  have hpost : k ∉ (ps.drop (i + 1)).map Prod.fst := by
    intro hmem
    obtain ⟨⟨k', y⟩, hy, hk'⟩ := List.mem_map.mp hmem
    simp only at hk'
    subst hk'
    obtain ⟨n, hn⟩ := List.mem_iff_getElem?.mp hy
    rw [List.getElem?_drop] at hn
    exact hlast (i + 1 + n) y (by omega) hn
  rw [hsplit, assignAll_append]
  have hstep : ∀ r' : Record, assignAll r' ((k, x) :: ps.drop (i + 1)) =
      assignAll (r'.assign k x) (ps.drop (i + 1)) := fun _ => rfl
  rw [hstep, assignAll_index_keep _ _ k hpost, Record.index_assign]
  simp

theorem assignAll_mem_keys (ps : List (String × String)) :
    ∀ (r : Record) (k : String),
      k ∈ (assignAll r ps).keys ↔ k ∈ r.keys ∨ k ∈ ps.map Prod.fst := by
  induction ps with
  | nil => intro r k; simp [assignAll]
  | cons p ps ih =>
    intro r k
    have hstep : assignAll r (p :: ps) = assignAll (r.assign p.1 p.2) ps := rfl
    rw [hstep, ih, Record.mem_keys_assign]
    simp only [List.map_cons, List.mem_cons]
    tauto

theorem assignAll_nodup (ps : List (String × String)) :
    ∀ r : Record, r.keys.Nodup → (assignAll r ps).keys.Nodup := by
  induction ps with
  | nil => intro r h; exact h
  | cons p ps ih =>
    intro r h
    exact ih _ (Record.nodup_keys_assign r p.1 p.2 h)

theorem Record.assign_fresh (r : Record) (k v : String) (h : k ∉ r.keys) :
    r.assign k v = r ++ [(k, v)] := by
  induction r with
  | nil => rfl
  | cons p r ih =>
    obtain ⟨a, b⟩ := p
    simp only [Record.keys, List.map_cons, List.mem_cons, not_or] at h
    have hak : ¬ a = k := fun e => h.1 e.symm
    have := ih (by simpa [Record.keys] using h.2)
    simp [Record.assign, hak, this]

theorem assignAll_zip_nodup (hs : List String) :
    ∀ (vs : List String) (r : Record), (r.keys ++ hs).Nodup →
      assignAll r (List.zip hs vs) = r ++ List.zip hs vs := by
  induction hs with
  | nil => intro vs r _; simp [assignAll]
  | cons h hs ih =>
    intro vs r hnd
    cases vs with
    | nil => simp [assignAll]
    | cons v vs =>
      have hfresh : h ∉ r.keys := by
        intro hmem
        have := (List.nodup_append.mp hnd).2.2
        exact this hmem (List.mem_cons_self _ _)
      have hstep : assignAll r (List.zip (h :: hs) (v :: vs)) =
          assignAll (r.assign h v) (List.zip hs vs) := rfl
      rw [hstep, Record.assign_fresh r h v hfresh, ih]
      · simp
      · simpa [Record.keys, List.nodup_append, List.nodup_cons, List.map_append] using hnd

theorem assignAll_zip_index (headers row : List String) (i : Nat) (h x : String)
    (hh : headers[i]? = some h) (hx : row[i]? = some x)
    (hlast : ∀ j, i < j → headers[j]? ≠ some h) :
    (assignAll [] (List.zip headers row)).index h = x := by
  apply assignAll_index_at (List.zip headers row) [] i h x
  · exact List.getElem?_zip_eq_some.mpr ⟨hh, hx⟩
  · intro j y hij hj
    exact hlast j hij (List.getElem?_zip_eq_some.mp hj).1

theorem nodup_no_later (headers : List String) (hnd : headers.Nodup) (i : Nat) (h : String)
    (hh : headers[i]? = some h) : ∀ j, i < j → headers[j]? ≠ some h := by
  intro j hij hj
  obtain ⟨hi, hgi⟩ := List.getElem?_eq_some.mp hh
  obtain ⟨hj', hgj⟩ := List.getElem?_eq_some.mp hj
  have := (List.Nodup.getElem_inj_iff hnd).mp (hgi.trans hgj.symm)
  omega

/-- C7 (record shape), as the code has it.  For every header and every row
with as many fields as the header, the shaping loop returns a Record whose
key set is the set of header entries, with one value per key; the value
stored for a header name is the row's field at the last position where that
name occurs in the header.  When the header names are pairwise distinct the
Record is the list of header/field pairs, so the value stored for the i-th
header entry is the row's i-th field for every `i`. -/
theorem record_shape (headers row : List String) (hlen : row.length = headers.length) :
    ∃ r : Record, shapeRow headers row = some r ∧
      (∀ k, k ∈ r.keys ↔ k ∈ headers) ∧ r.keys.Nodup ∧
      (∀ (i : Nat) (h x : String), headers[i]? = some h → row[i]? = some x →
        (∀ j, i < j → headers[j]? ≠ some h) → r.index h = x) ∧
      (headers.Nodup → r = List.zip headers row ∧
        ∀ (i : Nat) (h x : String), headers[i]? = some h → row[i]? = some x → r.index h = x) := by
  refine ⟨_, shapeRow_eq headers row (le_of_eq hlen), ?_, ?_, ?_, ?_⟩
  · intro k
    rw [assignAll_mem_keys, List.map_fst_zip _ _ (le_of_eq hlen.symm)]
    simp [Record.keys]
  · exact assignAll_nodup _ _ (by simp [Record.keys])
  · exact assignAll_zip_index headers row
  · intro hnd
    refine ⟨by simpa using assignAll_zip_nodup headers row [] (by simpa [Record.keys] using hnd), ?_⟩
    intro i h x hh hx
    exact assignAll_zip_index headers row i h x hh hx (nodup_no_later headers hnd i h hh)

/-- A concrete instance of C7: the first data row of the sample file. -/
theorem record_shape_witness :
    ∃ r : Record, shapeRow ["name", "age"] ["Ada", "36"] = some r ∧
      (∀ k, k ∈ r.keys ↔ k ∈ ["name", "age"]) ∧ r.keys.Nodup ∧
      (∀ (i : Nat) (h x : String), ["name", "age"][i]? = some h → ["Ada", "36"][i]? = some x →
        (∀ j, i < j → ["name", "age"][j]? ≠ some h) → r.index h = x) ∧
      (["name", "age"].Nodup → r = List.zip ["name", "age"] ["Ada", "36"] ∧
        ∀ (i : Nat) (h x : String), ["name", "age"][i]? = some h → ["Ada", "36"][i]? = some x →
          r.index h = x) :=
  record_shape ["name", "age"] ["Ada", "36"] (by decide)

/-- C7 as stated fails when a header name repeats: with header `a,a` and
row `1,2` the Record is `{a: 2}`, so the value stored for header entry 0 is
not the row's field 0. -/
theorem record_shape_counterexample :
    shapeRow ["a", "a"] ["1", "2"] = some [("a", "2")] ∧
      ["1", "2"].length = ["a", "a"].length ∧
      ["a", "a"][0]? = some "a" ∧ ["1", "2"][0]? = some "1" ∧
      Record.index [("a", "2")] "a" ≠ "1" := by
  decide

/-! ## Tabular output -/

theorem set_at_length (done rest : List String) (x v : String) :
    (done ++ x :: rest).set done.length v = done ++ v :: rest := by
  induction done with
  | nil => rfl
  | cons d done ih => simp [ih]

theorem projectLoop_eq (record : Record) (hs : List String) :
    ∀ (i : Nat) (done rest : List String), done.length = i → rest.length = hs.length →
      projectLoop record i hs (done ++ rest) = done ++ hs.map record.index := by
  induction hs with
  | nil =>
    intro i done rest _ hrest
    have : rest = [] := List.length_eq_zero.mp hrest
    simp [projectLoop, this]
  | cons h hs ih =>
    intro i done rest hdone hrest
    cases rest with
    | nil => simp at hrest
    | cons x rest =>
      rw [projectLoop, ← hdone, set_at_length]
      have := ih (done.length + 1) (done ++ [record.index h]) rest (by simp) (by simpa using hrest)
      simpa using this

theorem project_eq (headers : List String) (record : Record) :
    project headers record = headers.map record.index := by
  have := projectLoop_eq record headers 0 [] (List.replicate headers.length "") rfl (by simp)
  simpa [project] using this

theorem writeLoop_eq (headers : List String) (recs : List Record) :
    ∀ written : List (List String),
      writeLoop headers recs written = written ++ recs.map fun r => headers.map r.index := by
  induction recs with
  | nil => intro written; simp [writeLoop]
  | cons r recs ih => intro written; simp [writeLoop, ih, project_eq]

theorem csvRows_eq (headers : List String) (sel : Slice Record) :
    csvRows headers sel = headers :: sel.toList.map fun r => headers.map r.index := by
  simp [csvRows, writeLoop_eq]

theorem project_shaped (headers row : List String) (hnd : headers.Nodup)
    (hlen : row.length = headers.length) :
    headers.map (assignAll [] (List.zip headers row)).index = row := by
  apply List.ext_getElem?
  intro i
  rw [List.getElem?_map]
  by_cases hi : i < headers.length
  · have hi' : i < row.length := by omega
    have hh := List.getElem?_eq_getElem hi
    rw [hh, List.getElem?_eq_getElem hi']
    simp only [Option.map_some', Option.some.injEq]
    exact assignAll_zip_index headers row i _ _ hh (List.getElem?_eq_getElem hi')
      (nodup_no_later headers hnd i _ hh)
  · rw [List.getElem?_eq_none (by omega), List.getElem?_eq_none (by omega)]
    rfl

/-! ## The run as a whole -/

theorem main_eq_process (E : Env) (prog inputFile : String) (rest : List String)
    (headers : List String) (rows : List (List String))
    (hopen : E.openErr inputFile = none)
    (hread : E.readAll inputFile = Except.ok (headers :: rows)) :
    main E (prog :: inputFile :: rest) =
      process E (parseFlags rest).1 (parseFlags rest).2 headers rows := by
  simp [main, hopen, hread]

theorem process_eq (E : Env) (outputFormat : String) (printOutput : Bool)
    (headers : List String) (rows : List (List String)) (recs : Slice Record)
    (hrecs : shapeRecords headers rows = some recs) :
    process E outputFormat printOutput headers rows =
      match select headers recs E.scanned with
      | Selection.invalidFormat =>
        ⟨preamble headers ++ ["\nInvalid filter format. Use <column>=<value>.\n"], none, false⟩
      | Selection.unknownColumn columnName =>
        ⟨preamble headers ++ ["\n Column name \'" ++ columnName ++ "\' not found.\n"], none, false⟩
      | Selection.noMatch => ⟨preamble headers ++ ["No matching records found.\n"], none, false⟩
      | Selection.selected filtered =>
        emit E headers filtered outputFormat printOutput (preamble headers) := by
  simp [process, hrecs]

theorem emit_cases (E : Env) (headers : List String) (sel : Slice Record)
    (outputFormat : String) (printOutput : Bool) (out : List String) :
    (∃ m path data, emit E headers sel outputFormat printOutput out =
        ⟨out ++ [m], some (path, data), false⟩) ∨
      (∃ m, emit E headers sel outputFormat printOutput out = ⟨out ++ [m], none, false⟩ ∧
        ErrorText m) := by
  have e1 : "\n Error creating output directory: ".data.take 3 = ['\n', ' ', 'E'] := by decide
  have e2 : "Error creating output data: ".data.take 1 = ['E'] := by decide
  have e3 : "Error writing to output file: ".data.take 1 = ['E'] := by decide
  unfold emit
  cases hmk : E.mkdirErr with
  | some err =>
    right
    refine ⟨_, rfl, Or.inr ?_⟩
    simp only [String.data_append, List.append_assoc]
    rw [List.take_append_of_le_length (by decide), e1]
  | none =>
    simp only []
    split
    · rename_i err2 _
      right
      refine ⟨_, rfl, Or.inl ?_⟩
      simp only [String.data_append, List.append_assoc]
      rw [List.take_append_of_le_length (by decide), e2]
    · cases hw : E.writeErr with
      | some err =>
        right
        refine ⟨_, rfl, Or.inl ?_⟩
        simp only [String.data_append, List.append_assoc]
        rw [List.take_append_of_le_length (by decide), e3]
      | none =>
        left
        simp only []
        split_ifs <;> exact ⟨_, _, _, rfl⟩

theorem report_inj (out : List String) (a b : String)
    (h : (⟨out ++ [a], none, false⟩ : Outcome) = ⟨out ++ [b], none, false⟩) : a = b := by
  simpa using h

theorem emit_ne_report (E : Env) (headers : List String) (sel : Slice Record)
    (outputFormat : String) (printOutput : Bool) (out : List String) (m0 : String)
    (h0 : ¬ ErrorText m0) :
    emit E headers sel outputFormat printOutput out ≠ ⟨out ++ [m0], none, false⟩ := by
  intro h
  rcases emit_cases E headers sel outputFormat printOutput out with
    ⟨m, path, data, hm⟩ | ⟨m, hm, herr⟩
  · rw [hm] at h
    simp at h
  · rw [hm] at h
    exact h0 (report_inj out m m0 h ▸ herr)

theorem unknownText_take (c : String) :
    ("\n Column name \'" ++ c ++ "\' not found.\n").data.take 3 = ['\n', ' ', 'C'] := by
  have e : "\n Column name \'".data.take 3 = ['\n', ' ', 'C'] := by decide
  simp only [String.data_append, List.append_assoc]
  rw [List.take_append_of_le_length (by decide), e]

theorem unknownText_not_error (c : String) :
    ¬ ErrorText ("\n Column name \'" ++ c ++ "\' not found.\n") := by
  have h3 := unknownText_take c
  have h1 : ("\n Column name \'" ++ c ++ "\' not found.\n").data.take 1 = ['\n'] := by
    simp only [String.data_append, List.append_assoc]
    rw [List.take_append_of_le_length (by decide)]
    decide
  rintro (h | h)
  · rw [h1] at h; exact absurd h (by decide)
  · rw [h3] at h; exact absurd h (by decide)

theorem invalidText_not_error :
    ¬ ErrorText "\nInvalid filter format. Use <column>=<value>.\n" := by
  unfold ErrorText; decide

theorem noMatchText_not_error : ¬ ErrorText "No matching records found.\n" := by
  unfold ErrorText; decide

theorem noMatchText_ne_unknown (c : String) :
    "No matching records found.\n" ≠ "\n Column name \'" ++ c ++ "\' not found.\n" := by
  intro h
  have h3 := unknownText_take c
  rw [← h] at h3
  exact absurd h3 (by decide)

theorem invalidText_ne_unknown (c : String) :
    "\nInvalid filter format. Use <column>=<value>.\n" ≠
      "\n Column name \'" ++ c ++ "\' not found.\n" := by
  intro h
  have h3 := unknownText_take c
  rw [← h] at h3
  exact absurd h3 (by decide)

theorem filter_eq_nil_iff (recs : List Record) (c v : String) :
    recs.filter (fun r => decide (r.index c = v)) = [] ↔ ∀ r ∈ recs, r.index c ≠ v := by
  simp [List.filter_eq_nil_iff]

/-- C3 (unknown column).  In a run that loads a header and data rows with as
many fields as the header and reads a token `c=v`: if `c` is no header entry
the run prints the unknown-column report for `c` and writes nothing; if `c`
is a header entry the run ends with no unknown-column report at all.  Hence
the report for `c` is the outcome iff `c` is not in the header, whatever the
rows are. -/
theorem unknown_column (E : Env) (prog inputFile : String) (rest headers : List String)
    (rows : List (List String)) (c v : String)
    (hopen : E.openErr inputFile = none)
    (hread : E.readAll inputFile = Except.ok (headers :: rows))
    (hrows : ∀ r ∈ rows, r.length = headers.length)
    (htoken : E.scanned = c ++ "=" ++ v) (hsplit : '=' ∉ c.data) :
    (main E (prog :: inputFile :: rest) =
        ⟨preamble headers ++ ["\n Column name \'" ++ c ++ "\' not found.\n"], none, false⟩ ↔
      c ∉ headers) ∧
    (c ∈ headers → ∀ other : String, main E (prog :: inputFile :: rest) ≠
        ⟨preamble headers ++ ["\n Column name \'" ++ other ++ "\' not found.\n"], none, false⟩) := by
  obtain ⟨recs, hrecs, -⟩ :=
    shapeRecords_toList headers rows (fun r hr => le_of_eq (hrows r hr))
  have hmain := main_eq_process E prog inputFile rest headers rows hopen hread
  have hproc := process_eq E (parseFlags rest).1 (parseFlags rest).2 headers rows recs hrecs
  rw [htoken, select_token headers recs c v hsplit] at hproc
  have hin : c ∈ headers → ∀ other : String, main E (prog :: inputFile :: rest) ≠
      ⟨preamble headers ++ ["\n Column name \'" ++ other ++ "\' not found.\n"], none, false⟩ := by
    intro hc other
    rw [hmain, hproc]
    simp only [hc, not_true_eq_false, if_false]
    by_cases hf : recs.toList.filter (fun r => decide (r.index c = v)) = []
    · simp only [hf, if_true]
      intro h
      exact noMatchText_ne_unknown other (report_inj _ _ _ h)
    · simp only [hf, if_false]
      exact emit_ne_report _ _ _ _ _ _ _ (unknownText_not_error other)
  refine ⟨⟨?_, ?_⟩, hin⟩
  · intro h hc
    exact hin hc c h
  · intro hc
    rw [hmain, hproc]
    simp [hc]

/-- A concrete instance of C3: the sample file and the token `email=x`. -/
theorem unknown_column_witness :
    (main (goEnv sampleRecords "email=x") ["tool", "data.csv"] =
        ⟨preamble ["name", "age"] ++ ["\n Column name \'" ++ "email" ++ "\' not found.\n"],
          none, false⟩ ↔
      "email" ∉ ["name", "age"]) ∧
    ("email" ∈ ["name", "age"] → ∀ other : String,
      main (goEnv sampleRecords "email=x") ["tool", "data.csv"] ≠
        ⟨preamble ["name", "age"] ++ ["\n Column name \'" ++ other ++ "\' not found.\n"],
          none, false⟩) :=
  unknown_column (goEnv sampleRecords "email=x") "tool" "data.csv" [] ["name", "age"]
    sampleRecords.tail "email" "x" rfl rfl (by decide) (by decide) (by decide)

theorem select_invalid_iff (headers : List String) (recs : Slice Record) (t : String)
    (ht : t ≠ "") : select headers recs t = Selection.invalidFormat ↔ '=' ∉ t.data := by
  constructor
  · intro h heq
    obtain ⟨c, v, -, hcv, hc⟩ := SplitN_has_eq t heq
    rw [← hcv, select_token headers recs c v hc] at h
    split_ifs at h
  · intro hno
    simp [select, ht, SplitN_no_eq t hno]

/-- C4 (filter token parsing).  For every non-empty token: it is rejected
with the invalid-format report iff it contains no `=`; otherwise the split
yields `column` and `value` with `column ++ "=" ++ value` equal to the token
and no `=` in `column`, that is, the cut is at the first `=` and later `=`
characters stay in the value. -/
theorem filter_token_parsing (t : String) (ht : t ≠ "") :
    ('=' ∉ t.data → SplitN t = [t]) ∧
    ('=' ∈ t.data → ∃ c v, SplitN t = [c, v] ∧ c ++ "=" ++ v = t ∧ '=' ∉ c.data) ∧
    (∀ c v : String, '=' ∉ c.data → t = c ++ "=" ++ v → SplitN t = [c, v]) ∧
    (∀ (headers : List String) (recs : Slice Record),
      select headers recs t = Selection.invalidFormat ↔ '=' ∉ t.data) ∧
    (∀ (E : Env) (prog inputFile : String) (rest headers : List String)
        (rows : List (List String)),
      E.openErr inputFile = none → E.readAll inputFile = Except.ok (headers :: rows) →
      (∀ r ∈ rows, r.length = headers.length) → E.scanned = t →
      (main E (prog :: inputFile :: rest) =
          ⟨preamble headers ++ ["\nInvalid filter format. Use <column>=<value>.\n"], none, false⟩ ↔
        '=' ∉ t.data)) := by
  refine ⟨SplitN_no_eq t, SplitN_has_eq t, ?_, fun headers recs => select_invalid_iff headers recs t ht,
    ?_⟩
  · intro c v hc hcv
    rw [hcv, SplitN_token c v hc]
  · intro E prog inputFile rest headers rows hopen hread hrows htoken
    obtain ⟨recs, hrecs, -⟩ :=
      shapeRecords_toList headers rows (fun r hr => le_of_eq (hrows r hr))
    rw [main_eq_process E prog inputFile rest headers rows hopen hread,
      process_eq E (parseFlags rest).1 (parseFlags rest).2 headers rows recs hrecs, htoken]
    constructor
    · intro h heq
      obtain ⟨c, v, -, hcv, hc⟩ := SplitN_has_eq t heq
      rw [← hcv] at h
      by_cases hmem : c ∈ headers
      · by_cases hf : recs.toList.filter (fun r => decide (r.index c = v)) = []
        · rw [select_token_noMatch headers recs c v hc hmem hf] at h
          have := report_inj _ _ _ h
          exact absurd this (by decide)
        · rw [select_token_selected headers recs c v hc hmem hf] at h
          exact emit_ne_report _ _ _ _ _ _ _ invalidText_not_error h
      · rw [select_token_unknown headers recs c v hc hmem] at h
        exact invalidText_ne_unknown c (report_inj _ _ _ h).symm
    · intro hno
      rw [(select_invalid_iff headers recs t ht).mpr hno]

/-- A concrete instance of C4: the token `a=b=c` splits into `a` and `b=c`. -/
theorem filter_token_parsing_witness :
    ('=' ∉ "a=b=c".data → SplitN "a=b=c" = ["a=b=c"]) ∧
    ('=' ∈ "a=b=c".data →
      ∃ c v, SplitN "a=b=c" = [c, v] ∧ c ++ "=" ++ v = "a=b=c" ∧ '=' ∉ c.data) ∧
    (∀ c v : String, '=' ∉ c.data → "a=b=c" = c ++ "=" ++ v → SplitN "a=b=c" = [c, v]) ∧
    (∀ (headers : List String) (recs : Slice Record),
      select headers recs "a=b=c" = Selection.invalidFormat ↔ '=' ∉ "a=b=c".data) ∧
    (∀ (E : Env) (prog inputFile : String) (rest headers : List String)
        (rows : List (List String)),
      E.openErr inputFile = none → E.readAll inputFile = Except.ok (headers :: rows) →
      (∀ r ∈ rows, r.length = headers.length) → E.scanned = "a=b=c" →
      (main E (prog :: inputFile :: rest) =
          ⟨preamble headers ++ ["\nInvalid filter format. Use <column>=<value>.\n"], none, false⟩ ↔
        '=' ∉ "a=b=c".data)) :=
  filter_token_parsing "a=b=c" (by decide)

/-- C9 (empty match).  In a run that loads a header and data rows with as
many fields as the header, the outcome is the no-match report with no file
written iff the token is `c=v` with `c` a header entry and no shaped record
has value `v` at `c`.  With an empty token the run never ends so, and when
the directory, the encoder and the file write succeed it writes a file, also
when there is no data row. -/
theorem empty_match (E : Env) (prog inputFile : String) (rest headers : List String)
    (rows : List (List String))
    (hopen : E.openErr inputFile = none)
    (hread : E.readAll inputFile = Except.ok (headers :: rows))
    (hrows : ∀ r ∈ rows, r.length = headers.length) :
    ∃ recs : Slice Record, shapeRecords headers rows = some recs ∧
      (main E (prog :: inputFile :: rest) =
          ⟨preamble headers ++ ["No matching records found.\n"], none, false⟩ ↔
        ∃ c v : String, E.scanned = c ++ "=" ++ v ∧ '=' ∉ c.data ∧ c ∈ headers ∧
          ∀ r ∈ recs.toList, r.index c ≠ v) ∧
      (E.scanned = "" →
        main E (prog :: inputFile :: rest) ≠
          ⟨preamble headers ++ ["No matching records found.\n"], none, false⟩ ∧
        (E.mkdirErr = none → E.writeErr = none →
          (∀ (d : JsonDoc) (err : String), E.marshalIndent d ≠ Except.error err) →
          ∃ path data : String, (main E (prog :: inputFile :: rest)).file = some (path, data))) := by
  obtain ⟨recs, hrecs, -⟩ :=
    shapeRecords_toList headers rows (fun r hr => le_of_eq (hrows r hr))
  have hmain := main_eq_process E prog inputFile rest headers rows hopen hread
  have hproc := process_eq E (parseFlags rest).1 (parseFlags rest).2 headers rows recs hrecs
  refine ⟨recs, hrecs, ⟨?_, ?_⟩, ?_⟩
  · intro h
    rw [hmain, hproc] at h
    by_cases hempty : E.scanned = ""
    · rw [hempty, select_empty] at h
      exact absurd h (emit_ne_report _ _ _ _ _ _ _ noMatchText_not_error)
    · by_cases heq : '=' ∈ E.scanned.data
      · obtain ⟨c, v, -, hcv, hc⟩ := SplitN_has_eq E.scanned heq
        rw [← hcv] at h
        by_cases hmem : c ∈ headers
        · by_cases hf : recs.toList.filter (fun r => decide (r.index c = v)) = []
          · exact ⟨c, v, hcv.symm, hc, hmem, (filter_eq_nil_iff _ c v).mp hf⟩
          · rw [select_token_selected headers recs c v hc hmem hf] at h
            exact absurd h (emit_ne_report _ _ _ _ _ _ _ noMatchText_not_error)
        · rw [select_token_unknown headers recs c v hc hmem] at h
          exact absurd (report_inj _ _ _ h).symm (noMatchText_ne_unknown c)
      · rw [(select_invalid_iff headers recs E.scanned hempty).mpr heq] at h
        have := report_inj _ _ _ h
        exact absurd this (by decide)
  · rintro ⟨c, v, hcv, hc, hmem, hall⟩
    rw [hmain, hproc, hcv, select_token headers recs c v hc]
    simp [hmem, (filter_eq_nil_iff _ c v).mpr hall]
  · intro hempty
    rw [hmain, hproc, hempty, select_empty]
    refine ⟨emit_ne_report _ _ _ _ _ _ _ noMatchText_not_error, ?_⟩
    intro hmk hw hok
    unfold emit
    simp only [hmk, hw]
    split
    · rename_i err2 heq
      split_ifs at heq <;> exact absurd heq (hok _ _)
    · split_ifs <;> exact ⟨_, _, rfl⟩

/-- A concrete instance of C9: the sample file and the token `name=Nobody`. -/
theorem empty_match_witness :
    ∃ recs : Slice Record, shapeRecords ["name", "age"] sampleRecords.tail = some recs ∧
      (main (goEnv sampleRecords "name=Nobody") ["tool", "data.csv"] =
          ⟨preamble ["name", "age"] ++ ["No matching records found.\n"], none, false⟩ ↔
        ∃ c v : String, (goEnv sampleRecords "name=Nobody").scanned = c ++ "=" ++ v ∧
          '=' ∉ c.data ∧ c ∈ ["name", "age"] ∧ ∀ r ∈ recs.toList, r.index c ≠ v) ∧
      ((goEnv sampleRecords "name=Nobody").scanned = "" →
        main (goEnv sampleRecords "name=Nobody") ["tool", "data.csv"] ≠
          ⟨preamble ["name", "age"] ++ ["No matching records found.\n"], none, false⟩ ∧
        ((goEnv sampleRecords "name=Nobody").mkdirErr = none →
          (goEnv sampleRecords "name=Nobody").writeErr = none →
          (∀ (d : JsonDoc) (err : String),
            (goEnv sampleRecords "name=Nobody").marshalIndent d ≠ Except.error err) →
          ∃ path data : String,
            (main (goEnv sampleRecords "name=Nobody") ["tool", "data.csv"]).file =
              some (path, data))) :=
  empty_match (goEnv sampleRecords "name=Nobody") "tool" "data.csv" [] ["name", "age"]
    sampleRecords.tail rfl rfl (by decide)

/-! ## The output step -/

theorem emit_file (E : Env) (headers : List String) (sel : Slice Record)
    (outputFormat : String) (printOutput : Bool) (out : List String) (path data : String)
    (h : (emit E headers sel outputFormat printOutput out).file = some (path, data)) :
    path = outputPath E.timestamp outputFormat ∧
      (outputFormat = "json" → E.marshalIndent (jsonValue sel) = Except.ok data) ∧
      (outputFormat ≠ "json" → data = csvText E headers sel) ∧
      (printOutput = true →
        (emit E headers sel outputFormat printOutput out).stdout = out ++ [data ++ "\n"]) ∧
      (printOutput = false →
        (emit E headers sel outputFormat printOutput out).stdout =
          out ++ ["Output written to " ++ path ++ "\n"]) := by
  unfold emit at h ⊢
  cases hmk : E.mkdirErr with
  | some err => simp [hmk] at h
  | none =>
    cases hw : E.writeErr with
    | some err =>
      simp only [hmk, hw] at h
      split at h <;> simp at h
    | none =>
      by_cases hj : outputFormat = "json"
      · cases hm : E.marshalIndent (jsonValue sel) with
        | error err2 => simp [hmk, hw, hj, hm] at h
        | ok outputData =>
          cases printOutput <;>
            · simp only [hmk, hw, hj, hm, if_true] at h ⊢
              simp at h
              obtain ⟨h1, h2⟩ := h
              subst h1; subst h2
              simp
      · cases printOutput <;>
          · simp only [hmk, hw, hj, if_false] at h ⊢
            simp at h
            obtain ⟨h1, h2⟩ := h
            subst h1; subst h2
            simp [hj]

theorem emit_csv_file (E : Env) (headers : List String) (sel : Slice Record)
    (printOutput : Bool) (out : List String)
    (hmk : E.mkdirErr = none) (hw : E.writeErr = none) :
    (emit E headers sel "csv" printOutput out).file =
      some (outputPath E.timestamp "csv", csvText E headers sel) := by
  have hj : ¬ "csv" = "json" := by decide
  cases printOutput <;> simp [emit, hmk, hw, hj]

/-- C6 (tabular output keeps header and column order).  For every header:
the rows passed to the CSV writer are the header followed by, for each
selected record in order, its projection onto the header positions; when the
header names are pairwise distinct, the projection of the record shaped from
a row with as many fields as the header is that row; so with an empty token
and at most ten such rows, the written rows are the input rows, and a run in
tabular mode whose system calls succeed writes the encoding of exactly the
input rows. -/
theorem tabular_rows (headers : List String) :
    (∀ sel : Slice Record,
        csvRows headers sel = headers :: sel.toList.map fun r => headers.map r.index) ∧
      (headers.Nodup → ∀ row : List String, row.length = headers.length →
        ∃ r : Record, shapeRow headers row = some r ∧ project headers r = row) ∧
      (headers.Nodup → ∀ rows : List (List String),
        (∀ r ∈ rows, r.length = headers.length) → rows.length ≤ 10 →
        ∃ recs : Slice Record, shapeRecords headers rows = some recs ∧
          select headers recs "" = Selection.selected recs ∧
          csvRows headers recs = headers :: rows) ∧
      (headers.Nodup → ∀ (rows : List (List String)) (E : Env) (prog inputFile : String)
          (rest : List String),
        (∀ r ∈ rows, r.length = headers.length) → rows.length ≤ 10 →
        E.openErr inputFile = none → E.readAll inputFile = Except.ok (headers :: rows) →
        E.scanned = "" → E.mkdirErr = none → E.writeErr = none →
        (parseFlags rest).1 = "csv" →
        (main E (prog :: inputFile :: rest)).file =
          some (outputPath E.timestamp "csv",
            String.join ((headers :: rows).map E.csvWrite))) := by
  have hthird : headers.Nodup → ∀ rows : List (List String),
      (∀ r ∈ rows, r.length = headers.length) → rows.length ≤ 10 →
      ∃ recs : Slice Record, shapeRecords headers rows = some recs ∧
        select headers recs "" = Selection.selected recs ∧
        csvRows headers recs = headers :: rows := by
    intro hnd rows hrows hten
    obtain ⟨recs, hrecs, hlist⟩ :=
      shapeRecords_toList headers rows (fun r hr => le_of_eq (hrows r hr))
    have hlen : ¬ recs.len > 10 := by
      have : recs.len = rows.length := by simp [hlist]
      omega
    refine ⟨recs, hrecs, ?_, ?_⟩
    · rw [select_empty, if_neg hlen]
    · rw [csvRows_eq, hlist, List.map_map]
      congr 1
      conv_rhs => rw [← List.map_id rows]
      apply List.map_congr_left
      intro row hrow
      exact project_shaped headers row hnd (hrows row hrow)
  refine ⟨csvRows_eq headers, ?_, hthird, ?_⟩
  · intro hnd row hlen
    refine ⟨_, shapeRow_eq headers row (le_of_eq hlen), ?_⟩
    rw [project_eq, project_shaped headers row hnd hlen]
  · intro hnd rows E prog inputFile rest hrows hten hopen hread htoken hmk hw hfmt
    obtain ⟨recs, hrecs, hsel, hcsv⟩ := hthird hnd rows hrows hten
    rw [main_eq_process E prog inputFile rest headers rows hopen hread,
      process_eq E _ _ headers rows recs hrecs, htoken, hsel, hfmt]
    simp only []
    rw [emit_csv_file E headers recs _ _ hmk hw, csvText, hcsv]

theorem process_file (E : Env) (outputFormat : String) (printOutput : Bool)
    (headers : List String) (rows : List (List String)) (path data : String)
    (h : (process E outputFormat printOutput headers rows).file = some (path, data)) :
    ∃ recs sel, shapeRecords headers rows = some recs ∧
      select headers recs E.scanned = Selection.selected sel ∧
      process E outputFormat printOutput headers rows =
        emit E headers sel outputFormat printOutput (preamble headers) := by
  cases hs : shapeRecords headers rows with
  | none => simp [process, hs] at h
  | some recs =>
    have hproc := process_eq E outputFormat printOutput headers rows recs hs
    rw [hproc] at h
    cases hsel : select headers recs E.scanned with
    | invalidFormat => simp [hsel] at h
    | unknownColumn c => simp [hsel] at h
    | noMatch => simp [hsel] at h
    | selected sel =>
      refine ⟨recs, sel, rfl, hsel, ?_⟩
      rw [hproc, hsel]

theorem main_file (E : Env) (args : List String) (path data : String)
    (h : (main E args).file = some (path, data)) :
    ∃ prog inputFile rest headers rows, args = prog :: inputFile :: rest ∧
      E.openErr inputFile = none ∧ E.readAll inputFile = Except.ok (headers :: rows) ∧
      main E args = process E (parseFlags rest).1 (parseFlags rest).2 headers rows := by
  match args, h with
  | [], h => simp [main] at h
  | [_], h => simp [main] at h
  | prog :: inputFile :: rest, h =>
    cases ho : E.openErr inputFile with
    | some err => simp [main, ho] at h
    | none =>
      cases hr : E.readAll inputFile with
      | error err => simp [main, ho, hr] at h
      | ok records =>
        cases records with
        | nil => simp [main, ho, hr] at h
        | cons headers rows =>
          exact ⟨prog, inputFile, rest, headers, rows, rfl, ho, hr,
            main_eq_process E prog inputFile rest headers rows ho hr⟩

/-- C8 (echo), as the code has it.  In every run that writes the file
`path` with content `data`: with `printOutput` set, the one text printed
after the prompt is `data` followed by one newline (`fmt.Println`), and no
`Output written to` line is printed; with `printOutput` unset, the one text
printed after the prompt is the line `Output written to <path>`. -/
theorem echo_output (E : Env) (args : List String) (path data : String)
    (hfile : (main E args).file = some (path, data)) :
    ∃ (prog inputFile : String) (rest headers : List String) (rows : List (List String)),
      args = prog :: inputFile :: rest ∧
      E.readAll inputFile = Except.ok (headers :: rows) ∧
      path = outputPath E.timestamp (parseFlags rest).1 ∧
      ((parseFlags rest).2 = true → (main E args).stdout = preamble headers ++ [data ++ "\n"]) ∧
      ((parseFlags rest).2 = false →
        (main E args).stdout = preamble headers ++ ["Output written to " ++ path ++ "\n"]) := by
  obtain ⟨prog, inputFile, rest, headers, rows, hargs, -, hread, hmain⟩ :=
    main_file E args path data hfile
  rw [hmain] at hfile
  obtain ⟨recs, sel, -, -, hproc⟩ := process_file E _ _ headers rows path data hfile
  rw [hproc] at hfile
  obtain ⟨hpath, -, -, hprint, hquiet⟩ := emit_file E headers sel _ _ _ path data hfile
  refine ⟨prog, inputFile, rest, headers, rows, hargs, hread, hpath, ?_, ?_⟩
  · intro hp; rw [hmain, hproc]; exact hprint hp
  · intro hp; rw [hmain, hproc]; exact hquiet hp

/-- A concrete instance of C8: the sample file, no filter, `--print`. -/
theorem echo_output_witness :
    ∃ (prog inputFile : String) (rest headers : List String) (rows : List (List String)),
      ["tool", "data.csv", "--print"] = prog :: inputFile :: rest ∧
      (goEnv sampleRecords "").readAll inputFile = Except.ok (headers :: rows) ∧
      "outputs/output_20240102030405.csv" =
        outputPath (goEnv sampleRecords "").timestamp (parseFlags rest).1 ∧
      ((parseFlags rest).2 = true →
        (main (goEnv sampleRecords "") ["tool", "data.csv", "--print"]).stdout =
          preamble headers ++ ["name,age\nAda,36\nGrace,85\nLinus,54\n" ++ "\n"]) ∧
      ((parseFlags rest).2 = false →
        (main (goEnv sampleRecords "") ["tool", "data.csv", "--print"]).stdout =
          preamble headers ++
            ["Output written to " ++ "outputs/output_20240102030405.csv" ++ "\n"]) :=
  echo_output (goEnv sampleRecords "") ["tool", "data.csv", "--print"]
    "outputs/output_20240102030405.csv" "name,age\nAda,36\nGrace,85\nLinus,54\n" (by decide)

/-- C8 as stated fails: with `--print` the text printed at the output step
is the file content plus a newline, not the file content itself. -/
theorem echo_output_counterexample :
    (main (goEnv sampleRecords "") ["tool", "data.csv", "--print"]).file =
        some ("outputs/output_20240102030405.csv", "name,age\nAda,36\nGrace,85\nLinus,54\n") ∧
      (main (goEnv sampleRecords "") ["tool", "data.csv", "--print"]).stdout.getLast? =
        some "name,age\nAda,36\nGrace,85\nLinus,54\n\n" ∧
      (main (goEnv sampleRecords "") ["tool", "data.csv", "--print"]).stdout.getLast? ≠
        some "name,age\nAda,36\nGrace,85\nLinus,54\n" := by
  decide

/-! ## Structured output -/

theorem selected_nil_iff (headers : List String) (rows : List (List String))
    (recs sel : Slice Record) (token : String)
    (hrows : ∀ r ∈ rows, r.length = headers.length)
    (hrecs : shapeRecords headers rows = some recs)
    (hsel : select headers recs token = Selection.selected sel) :
    sel = Slice.nil ↔ rows = [] ∧ token = "" := by
  have hshape := shapeRecords_eq headers rows (fun r hr => le_of_eq (hrows r hr))
  rw [hrecs] at hshape
  have hrecs' := Option.some.inj hshape
  by_cases ht : token = ""
  · subst ht
    rw [select_empty] at hsel
    have hsel' := Selection.selected.inj hsel
    by_cases hr : rows = []
    · subst hr
      simp only [if_true] at hrecs'
      subst hrecs'
      simp at hsel'
      simp [hsel']
    · simp only [hr, if_false] at hrecs'
      subst hrecs'
      split_ifs at hsel' <;> simp [← hsel', hr]
  · by_cases heq : '=' ∈ token.data
    · obtain ⟨c, v, -, hcv, hc⟩ := SplitN_has_eq token heq
      rw [← hcv, select_token headers recs c v hc] at hsel
      split_ifs at hsel
      have hsel' := Selection.selected.inj hsel
      simp [← hsel', ht]
    · rw [(select_invalid_iff headers recs token ht).mpr heq] at hsel
      cases hsel

/-- C10 (structured output) evaluated on the code.  A non-nil selection is
encoded as an array with one object per record, in order; a selection that
reaches the encoder is nil exactly when the input has no data row and the
token is empty, and then the encoder receives a nil slice, which
`encoding/json` writes as `null`: the run on a header-only file with
`--json` writes the file content `null`, not an empty array. -/
theorem structured_output :
    (∀ l : List Record, jsonValue (Slice.mk l) = JsonDoc.array l) ∧
    (∀ (headers : List String) (rows : List (List String)) (recs sel : Slice Record)
        (token : String), (∀ r ∈ rows, r.length = headers.length) →
      shapeRecords headers rows = some recs →
      select headers recs token = Selection.selected sel →
      (jsonValue sel = JsonDoc.null ↔ rows = [] ∧ token = "")) ∧
    shapeRecords ["name", "age"] [] = some Slice.nil ∧
    select ["name", "age"] Slice.nil "" = Selection.selected Slice.nil ∧
    jsonValue (Slice.nil : Slice Record) = JsonDoc.null ∧
    jsonValue (Slice.nil : Slice Record) ≠ JsonDoc.array [] ∧
    main (goEnv [["name", "age"]] "") ["tool", "data.csv", "--json"] =
      ⟨preamble ["name", "age"] ++ ["Output written to outputs/output_20240102030405.json\n"],
        some ("outputs/output_20240102030405.json", "null"), false⟩ := by
  refine ⟨fun _ => rfl, ?_, by decide, by decide, rfl, by decide, by decide⟩
  intro headers rows recs sel token hrows hrecs hsel
  rw [← selected_nil_iff headers rows recs sel token hrows hrecs hsel]
  cases sel <;> simp [jsonValue]

end CsvReaderCmd
